import Mathlib

/-!
Verification of the FableStack front-end game-stream core against its
specification.

The development shallowly embeds, over `List Char`, the narration token
pipeline of `front/src/views/GameView.vue` (`flushNarrativeBuffer`,
`appendToTimeline`, `handleStreamEvent`, the end-of-stream flush of
`executeTurn`), the event-kind dispatcher `getEventComponent`, the
`restoreHistory` API call of the api service, the tool-result classifier
`isSuccess` of the tool utils module, and — modelled from the spec, because
the backend resolver is not among the provided sources — the
skill-check resolver.
-/

namespace FableStack

/-! ### Text primitives (JavaScript string operations over `List Char`) -/

/-- JavaScript whitespace class `\s`, restricted to the ASCII range
(the game text never uses the exotic Unicode space code points). -/
def wsChar (c : Char) : Bool :=
  c = ' ' || c = '\t' || c = '\n' || c = '\r' || c = '\x0b' || c = '\x0c'

/-- JavaScript regex `.` without the `s` flag: any character except a line
terminator. -/
def dotChar (c : Char) : Bool := !(c = '\n' || c = '\r')

/-- Test `begins s pat`: the pattern `pat` occurs at the very start of `s`. -/
def begins : List Char → List Char → Bool
  | _, [] => true
  | [], _ :: _ => false
  | c :: s, p :: pat => c = p && begins s pat

/-- The two-character tag delimiters of the SPEAKER control tag. -/
def openTok : List Char := ['<', '<']

def closeTok : List Char := ['>', '>']

/-- Case-insensitive character comparison (regex `i` flag). -/
def charCI (a b : Char) : Bool := a.toLower = b.toLower

/-- Case-insensitive `begins`. -/
def beginsCI : List Char → List Char → Bool
  | _, [] => true
  | [], _ :: _ => false
  | c :: s, p :: pat => charCI c p && beginsCI s pat

/-- Index of the last occurrence of `pat` in `s`, if any (deepest suffix
first, so the returned index is maximal). -/
def lastHit : List Char → List Char → Option Nat
  | [], pat => if begins [] pat then some 0 else none
  | c :: rest, pat =>
    match lastHit rest pat with
    | some k => some (k + 1)
    | none => if begins (c :: rest) pat then some 0 else none

/-- JavaScript `s.lastIndexOf(pat)`: the index of the last occurrence,
`-1` if there is none. -/
def lastIndexOf (s pat : List Char) : Int :=
  match lastHit s pat with
  | some k => (k : Int)
  | none => -1

/-- Whether `pat` occurs anywhere in `s`. -/
def containsSub (s pat : List Char) : Bool := (lastHit s pat).isSome

/-- Length of the maximal leading whitespace run (greedy `\s*`). -/
def takeWs : List Char → Nat
  | [] => 0
  | c :: rest => if wsChar c then takeWs rest + 1 else 0

/-! ### The SPEAKER control-tag regex

`GameView.vue` strips control tags with
`text.replace(/<<\s*SPEAKER\s*:\s*(.*?)\s*>>/gi, '')`.  The functions below
embed one match attempt at a fixed position, then the global replace.

Semantics notes, justifying the shape of the embedding:
* a greedy `\s*` that is immediately followed by a non-whitespace literal
  (`SPEAKER`, `:`) can only succeed with the maximal whitespace run, since a
  whitespace character never equals the literal's first character; the same
  holds for the `\s*` before `>>`, so neither needs backtracking;
* the `\s*` after `:` is tried longest-first; the body `(.*?)` is lazy.
  Trying the maximal run first and then scanning lazily for `\s*>>`
  reproduces the backtracking order: a shorter leading run is explored only
  after every body length at the maximal run fails, and in that case the
  abandoned whitespace becomes part of the body, which traverses the same
  characters and tests `\s*>>` at positions that were already tested (any
  position inside a whitespace run reaches the same `>>` test), so no new
  match can appear.
-/

/-- The letters of `SPEAKER` (matched case-insensitively). -/
def speakerStr : List Char := ['S', 'P', 'E', 'A', 'K', 'E', 'R']

/-- Pattern `\s*>>` at the head of `q`: the maximal whitespace run followed by the
literal close marker; returns the number of characters consumed. -/
def tailMatch (q : List Char) : Option Nat :=
  let w := takeWs q
  if begins (q.drop w) closeTok = true then some (w + 2) else none

/-- Pattern `(.*?)\s*>>` at the head of `q` with a lazy body: the shortest body of
line-terminator-free characters after which `\s*>>` matches; returns the
number of characters consumed. -/
def lazyScan : List Char → Option Nat
  | [] => none
  | c :: q' =>
    match tailMatch (c :: q') with
    | some m => some m
    | none => if dotChar c then (lazyScan q').map (· + 1) else none

/-- Pattern `\s*(.*?)\s*>>` at the head of `r` (see the semantics notes above);
returns the number of characters consumed. -/
def findEnd (r : List Char) : Option Nat :=
  let w := takeWs r
  (lazyScan (r.drop w)).map (· + w)

/-- Pattern `:\s*(.*?)\s*>>` at the head of `s4`: the colon literal followed by
`findEnd`; returns the number of characters consumed. -/
def colonPart (s4 : List Char) : Option Nat :=
  match s4 with
  | [] => none
  | c3 :: r => if c3 = ':' then (findEnd r).map (· + 1) else none

/-- Pattern `\s*SPEAKER\s*:\s*(.*?)\s*>>` at the head of `s1` (everything after
the opening `<<`); returns the number of characters consumed. -/
def afterLt (s1 : List Char) : Option Nat :=
  let w1 := takeWs s1
  let s2 := s1.drop w1
  if beginsCI s2 speakerStr = true then
    let s3 := s2.drop 7
    let w2 := takeWs s3
    let s4 := s3.drop w2
    (colonPart s4).map (fun m => w1 + 7 + w2 + m)
  else none

/-- One attempt of `/<<\s*SPEAKER\s*:\s*(.*?)\s*>>/i` anchored at the head
of `s`; returns the length of the match, if any. -/
def matchAt (s : List Char) : Option Nat :=
  match s with
  | c1 :: c2 :: s1 =>
    if c1 = '<' ∧ c2 = '<' then (afterLt s1).map (· + 2) else none
  | _ => none

/-- Helper for `stripTags` with explicit fuel (each step consumes at least
one character, so `s.length` fuel always suffices). -/
def stripGo : Nat → List Char → List Char
  | 0, s => s
  | _ + 1, [] => []
  | fuel + 1, c :: rest =>
    match matchAt (c :: rest) with
    | some n => stripGo fuel ((c :: rest).drop n)
    | none => c :: stripGo fuel rest

/-- Embeds `text.replace(/<<\s*SPEAKER\s*:\s*(.*?)\s*>>/gi, '')`: remove every
leftmost match, resuming the scan right after each removed match (the
replacement is never rescanned), exactly as the JavaScript global replace
does. -/
def stripTags (s : List Char) : List Char := stripGo s.length s

/-! ### The timeline and the stream handler (`GameView.vue`)

`TimelineEvent` (api service): its `type` field ranges over the closed
string union below; the `timestamp`, `icon` and `metadata` fields carry
wall-clock time and presentation data that none of the verified properties
depend on, so the embedding keeps only `type` and `content`.  `content` is
`any` in the source; for every event the stream handler creates it is a
string (for `CHOICE` it is the choice array, opaque here), so it is
embedded as `List Char`. -/

inductive EventType where
  | USER_INPUT | SYSTEM_LOG | NARRATIVE | CHOICE | SKILL_CHECK
  | COMBAT_ATTACK | COMBAT_DAMAGE | COMBAT_INFO | COMBAT_TURN
  | ITEM_ADDED | ITEM_REMOVED | ITEM_CRAFTED | CURRENCY_CHANGE
  deriving DecidableEq, Repr

structure TimelineEvent where
  type : EventType
  content : List Char
  deriving DecidableEq, Repr

/-- The reactive state of `GameView.vue` that the stream handler touches:
the `timeline` ref and the `narrativeBuffer` ref. -/
structure GameState where
  timeline : List TimelineEvent
  narrativeBuffer : List Char
  deriving DecidableEq, Repr

/-- Source `appendToTimeline(content)`: if the last timeline event is a
`NARRATIVE`, concatenate onto its content, else push a fresh `NARRATIVE`
event. -/
def appendToTimeline (tl : List TimelineEvent) (content : List Char) :
    List TimelineEvent :=
  match tl.getLast? with
  | some e =>
    if e.type = EventType.NARRATIVE then
      tl.dropLast ++ [{ e with content := e.content ++ content }]
    else
      tl ++ [{ type := EventType.NARRATIVE, content := content }]
  | none => tl ++ [{ type := EventType.NARRATIVE, content := content }]

/-- No two adjacent `NARRATIVE` events in a timeline (the coalescing
invariant of `appendToTimeline`). -/
def noAdjNarr : List TimelineEvent → Bool
  | [] => true
  | [_] => true
  | a :: b :: rest =>
    !(a.type = EventType.NARRATIVE && b.type = EventType.NARRATIVE) &&
      noAdjNarr (b :: rest)

/-- Source `flushNarrativeBuffer(force)`:
* an empty buffer is a no-op (`if (!text) return`);
* without `force`, when the last `<<` lies after the last `>>` the tag at
  the tail is incomplete: the text before that `<<` (if any) is appended
  as-is and the rest is held back, waiting for more data;
* otherwise every complete SPEAKER tag is stripped, the remaining text (if
  non-empty) is appended, and the buffer is cleared.  (The `tagRegex.exec`
  loop before the replace only logs the captured names and mutates no
  state, so it has no counterpart here.) -/
def flushNarrativeBuffer (force : Bool) (s : GameState) : GameState :=
  let text := s.narrativeBuffer
  if text.isEmpty then s
  else
    let openTag := lastIndexOf text openTok
    let closeTag := lastIndexOf text closeTok
    if !force && (openTag != -1 && closeTag < openTag) then
      if openTag > 0 then
        { timeline := appendToTimeline s.timeline (text.take openTag.toNat),
          narrativeBuffer := text.drop openTag.toNat }
      else s
    else
      let text2 := stripTags text
      { timeline :=
          if text2.isEmpty then s.timeline
          else appendToTimeline s.timeline text2,
        narrativeBuffer := [] }

/-- The `data.type` values routed to the mechanical-event branch of
`handleStreamEvent`. -/
def mechTypes : List EventType :=
  [EventType.SKILL_CHECK, EventType.COMBAT_ATTACK, EventType.COMBAT_DAMAGE,
   EventType.COMBAT_INFO, EventType.COMBAT_TURN, EventType.ITEM_ADDED,
   EventType.ITEM_REMOVED, EventType.ITEM_CRAFTED,
   EventType.CURRENCY_CHANGE, EventType.SYSTEM_LOG]

/-- One parsed SSE frame, mirroring the `data.type` dispatch of
`handleStreamEvent`: `token` narration frames, typed event frames (only
the types in `mechTypes` are handled; any other `EventType` falls through
every branch), the legacy `system_log` frame, the `choices` frame and the
`error` frame. -/
inductive Frame where
  | token (content : List Char)
  | event (t : EventType) (content : List Char)
  | systemLogLegacy (content : List Char)
  | choices (content : List Char)
  | err (details : List Char)
  deriving DecidableEq, Repr

/-- Source `handleStreamEvent(data)` acting on the view state. -/
def handleStreamEvent (s : GameState) (d : Frame) : GameState :=
  match d with
  | Frame.token c =>
    flushNarrativeBuffer false
      { s with narrativeBuffer := s.narrativeBuffer ++ c }
  | Frame.event t c =>
    if t ∈ mechTypes then
      let s1 := flushNarrativeBuffer true s
      { s1 with timeline := s1.timeline ++ [{ type := t, content := c }] }
    else s
  | Frame.systemLogLegacy c =>
    let s1 := flushNarrativeBuffer true s
    { s1 with
      timeline := s1.timeline ++ [{ type := EventType.SYSTEM_LOG, content := c }] }
  | Frame.choices c =>
    let s1 := flushNarrativeBuffer true s
    { s1 with
      timeline := s1.timeline ++ [{ type := EventType.CHOICE, content := c }] }
  | Frame.err c =>
    let s1 := flushNarrativeBuffer true s
    { s1 with
      timeline := s1.timeline ++
        [{ type := EventType.SYSTEM_LOG, content := ('E' :: 'r' :: 'r' :: 'o' :: 'r' :: ':' :: ' ' :: c) }] }

/-- The frame loop of `executeTurn`: frames are handled in arrival order. -/
def processFrames (s : GameState) (ds : List Frame) : GameState :=
  ds.foldl handleStreamEvent s

/-- End of stream in `executeTurn`:
`if (narrativeBuffer.value) flushNarrativeBuffer(true)`. -/
def endOfStream (s : GameState) : GameState :=
  if s.narrativeBuffer.isEmpty then s else flushNarrativeBuffer true s

/-- A whole turn's worth of frames followed by the end-of-stream flush. -/
def runStream (s : GameState) (ds : List Frame) : GameState :=
  endOfStream (processFrames s ds)

/-! ### The event-kind dispatcher (`getEventComponent`) -/

/-- The renderer components imported by `GameView.vue`. -/
inductive Component where
  | UserInputEvent | SkillCheckEvent | CombatEvent | ItemEvent
  | CurrencyEvent | SystemLogEvent | NarrativeEvent
  deriving DecidableEq, Repr

/-- Source `getEventComponent(event)`: the `switch (event.type)` of
`GameView.vue`; the `default` arm returns `null`. -/
def getEventComponent (t : EventType) : Option Component :=
  match t with
  | EventType.USER_INPUT => some Component.UserInputEvent
  | EventType.SKILL_CHECK => some Component.SkillCheckEvent
  | EventType.COMBAT_ATTACK => some Component.CombatEvent
  | EventType.COMBAT_DAMAGE => some Component.CombatEvent
  | EventType.ITEM_ADDED => some Component.ItemEvent
  | EventType.ITEM_CRAFTED => some Component.ItemEvent
  | EventType.CURRENCY_CHANGE => some Component.CurrencyEvent
  | EventType.SYSTEM_LOG => some Component.SystemLogEvent
  | EventType.NARRATIVE => some Component.NarrativeEvent
  | _ => none

/-! ### The restore (rollback) API call

The api service exposes
`restoreHistory(sessionId: string, timestamp: string): Promise<void>`,
which posts `{ timestamp }` to
`/gamesession/history/${sessionId}/restore` and discards the response;
`confirmRestore` in `GameView.vue` invokes it with the timestamp of the
selected timeline event. -/

structure RestoreCall where
  path : String
  body : List (String × String)
  deriving DecidableEq, Repr

def restoreHistory (sessionId timestamp : String) : RestoreCall :=
  { path := "/gamesession/history/" ++ sessionId ++ "/restore",
    body := [("timestamp", timestamp)] }

/-- Source `confirmRestore` forwards the timestamp selected in the UI verbatim. -/
def confirmRestore (sessionId restoreTargetTimestamp : String) : RestoreCall :=
  restoreHistory sessionId restoreTargetTimestamp

/-! ### The tool-result classifier (`isSuccess`, tool utils module)

JavaScript values are embedded as the inductive below.  `typeof v ===
'object'` holds for `null` and for object values (arrays are irrelevant
here); truthiness follows JavaScript: `undefined`, `null`, `false`, `0`,
`''` are falsy, every object is truthy.  Object fields are a key-value
list; JavaScript objects cannot carry duplicate keys, and lookup takes the
first binding. -/

inductive JSValue where
  | undef
  | nullv
  | boolv (b : Bool)
  | numv (n : Int)
  | strv (s : String)
  | objv (fields : List (String × JSValue))

/-- JavaScript truthiness. -/
def truthy : JSValue → Bool
  | JSValue.undef => false
  | JSValue.nullv => false
  | JSValue.boolv b => b
  | JSValue.numv n => n != 0
  | JSValue.strv s => !s.isEmpty
  | JSValue.objv _ => true

/-- Test `'k' in content` on an object's fields. -/
def hasKey (fields : List (String × JSValue)) (k : String) : Bool :=
  fields.any (fun p => p.1 = k)

/-- Lookup `content[k]` on an object's fields (`undefined` when absent). -/
def getKey (fields : List (String × JSValue)) (k : String) : JSValue :=
  match fields.find? (fun p => p.1 = k) with
  | some p => p.2
  | none => JSValue.undef

/-- Whether the value is an object value proper (a non-null `'object'`). -/
def isObjValue : JSValue → Bool
  | JSValue.objv _ => true
  | _ => false

/-- Source `isSuccess(content)` from the tool utils module: falsy values are
failures; an object answers its `success` field when present, else is a
failure exactly when it has an `error` key; any other (truthy, non-object)
value is a failure.  The source returns `content.success` itself, which
need not be a boolean, so the result is a `JSValue`. -/
def isSuccess (content : JSValue) : JSValue :=
  if !truthy content then JSValue.boolv false
  else
    match content with
    | JSValue.objv fields =>
      if hasKey fields "success" then getKey fields "success"
      else if hasKey fields "error" then JSValue.boolv false
      else JSValue.boolv true
    | _ => JSValue.boolv false

/-! ### The skill-check resolver -/

/-- Modelled from the spec: the backend SkillCheckResolver implementation
is not among the provided sources (only its product documentation and its
front-end consumers are), so `resolve` is built from the spec's words:
`target = stat_value * 3 + skill_rank * 10 - difficulty_offset` with
`difficulty_offset ∈ {-20, 0, +20}` for favorable/normal/unfavorable,
target clamped to `[1, 99]`, a percentile roll, success iff
`roll <= target`, `margin = target - roll`. -/
inductive Difficulty where
  | favorable | normal | unfavorable
  deriving DecidableEq, Repr

/-- Modelled from the spec: the difficulty offset table. -/
def difficultyOffset : Difficulty → Int
  | Difficulty.favorable => -20
  | Difficulty.normal => 0
  | Difficulty.unfavorable => 20

/-- Modelled from the spec: integer clamping to `[lo, hi]`. -/
def clampInt (lo hi x : Int) : Int := max lo (min hi x)

/-- Modelled from the spec: the clamped skill-check target. -/
def resolveTarget (statValue skillRank : Int) (d : Difficulty) : Int :=
  clampInt 1 99 (statValue * 3 + skillRank * 10 - difficultyOffset d)

structure SkillCheckResult where
  target : Int
  roll : Int
  success : Bool
  margin : Int
  deriving DecidableEq, Repr

/-- Modelled from the spec: the resolver's verdict for a given percentile
roll. -/
def resolve (statValue skillRank : Int) (d : Difficulty) (roll : Int) :
    SkillCheckResult :=
  let t := resolveTarget statValue skillRank d
  { target := t, roll := roll, success := decide (roll ≤ t), margin := t - roll }

/-! ## Theorems -/

/-- C1: the narration token frames `"Hello <<SPE"` then `"AKER:Mara>> there"`,
processed in order by the token path of `handleStreamEvent` with the
end-of-stream flush, append exactly `"Hello  there"` to the timeline: after
the first frame only `"Hello "` is visible (no partial tag is ever
appended), and after the second frame plus the final flush the single
narrative event reads `"Hello  there"`, the SPEAKER tag fully stripped with
both surrounding spaces preserved. -/
theorem c1_split_tag_scenario :
    (handleStreamEvent { timeline := [], narrativeBuffer := [] }
        (Frame.token "Hello <<SPE".toList)).timeline
      = [{ type := EventType.NARRATIVE, content := "Hello ".toList }] ∧
    runStream { timeline := [], narrativeBuffer := [] }
        [Frame.token "Hello <<SPE".toList, Frame.token "AKER:Mara>> there".toList]
      = { timeline := [{ type := EventType.NARRATIVE,
                         content := "Hello  there".toList }],
          narrativeBuffer := [] } := by
  decide

/-- C5 counterexample: `combat-turn` belongs to the closed set of event
kinds of the `TimelineEvent` union, yet the dispatcher `getEventComponent`
returns `null` for it, so dispatch over the closed union is not
exhaustive. -/
theorem c5_combat_turn_unrendered :
    getEventComponent EventType.COMBAT_TURN = none := by
  decide

/-- C5 (amended): `getEventComponent` returns a renderer component for
every event kind except `CHOICE`, `COMBAT_INFO`, `COMBAT_TURN` and
`ITEM_REMOVED`, for which it returns `null`: the dispatch over the closed
tagged union is partial, not exhaustive. -/
theorem c5_dispatch_partial (t : EventType) :
    getEventComponent t = none ↔
      t ∈ [EventType.CHOICE, EventType.COMBAT_INFO, EventType.COMBAT_TURN,
           EventType.ITEM_REMOVED] := by
  cases t <;> simp [getEventComponent]

/-- C6 counterexample: at a concrete input, the restore call built by the
code addresses its rollback target with a `timestamp` body field — the
timestamp string selected in the UI is forwarded verbatim — and carries no
sequence-number field, refuting the claim that `restore_history` takes a
target sequence number. -/
theorem c6_restore_takes_timestamp :
    (confirmRestore "sess-1" "2024-05-01T10:00:00Z").body
        = [("timestamp", "2024-05-01T10:00:00Z")] ∧
    ((confirmRestore "sess-1" "2024-05-01T10:00:00Z").body.lookup
        "target_sequence") = none := by
  exact ⟨rfl, rfl⟩

/-- C6 (amended): the rollback operation addresses its target by
timestamp: `restoreHistory(session_id, timestamp)` posts a body whose sole
field is `timestamp` to `/gamesession/history/{session_id}/restore`, and
`confirmRestore` forwards the timestamp of the selected timeline event
verbatim; the client's `Promise<void>` discards the response, so no new
tail sequence number is returned to the caller. -/
theorem c6_restore_addressed_by_timestamp (sid ts : String) :
    (restoreHistory sid ts).path = "/gamesession/history/" ++ sid ++ "/restore" ∧
    (restoreHistory sid ts).body.lookup "timestamp" = some ts ∧
    (restoreHistory sid ts).body.lookup "target_sequence" = none ∧
    confirmRestore sid ts = restoreHistory sid ts := by
  refine ⟨rfl, ?_, ?_, rfl⟩ <;> simp [restoreHistory, List.lookup]

/-- C7: for every stat value, skill rank and difficulty, the computed
target lies in `[1, 99]`, and for identical stat and rank the
favorable-difficulty target dominates the normal target, which dominates
the unfavorable target. -/
theorem c7_target_clamped_and_monotone (statValue skillRank : Int)
    (d : Difficulty) :
    1 ≤ resolveTarget statValue skillRank d ∧
    resolveTarget statValue skillRank d ≤ 99 ∧
    resolveTarget statValue skillRank Difficulty.normal ≤
      resolveTarget statValue skillRank Difficulty.favorable ∧
    resolveTarget statValue skillRank Difficulty.unfavorable ≤
      resolveTarget statValue skillRank Difficulty.normal := by
  cases d <;>
    simp only [resolveTarget, clampInt, difficultyOffset, max_def, min_def] <;>
    split_ifs <;> omega

/-- C8: a skill check succeeds exactly when the roll is at most the target
(a roll equal to the target succeeds), the margin is `target - roll`, and
in particular stat 14, rank 2, normal difficulty gives target 62, so a
roll of 55 succeeds with margin 7. -/
theorem c8_success_boundary_and_margin :
    (∀ (statValue skillRank roll : Int) (d : Difficulty),
      ((resolve statValue skillRank d roll).success = true ↔
        roll ≤ (resolve statValue skillRank d roll).target) ∧
      (resolve statValue skillRank d roll).margin =
        (resolve statValue skillRank d roll).target - roll) ∧
    resolve 14 2 Difficulty.normal 55
      = { target := 62, roll := 55, success := true, margin := 7 } := by
  refine ⟨fun statValue skillRank roll d => ⟨?_, rfl⟩, by decide⟩
  simp [resolve]

/-- C10: the tool-result classifier `isSuccess` is total over embedded
JavaScript values and returns `false` for every non-object input (in
particular for `null`, `undefined` and every falsy value), the `success`
field's value when the object has a `success` key, `false` when the object
has an `error` key but no `success` key, and `true` for every other
object, including the empty object. -/
theorem c10_isSuccess_classification :
    (∀ v : JSValue, isObjValue v = false → isSuccess v = JSValue.boolv false) ∧
    (∀ fields, hasKey fields "success" = true →
      isSuccess (JSValue.objv fields) = getKey fields "success") ∧
    (∀ fields, hasKey fields "success" = false → hasKey fields "error" = true →
      isSuccess (JSValue.objv fields) = JSValue.boolv false) ∧
    (∀ fields, hasKey fields "success" = false → hasKey fields "error" = false →
      isSuccess (JSValue.objv fields) = JSValue.boolv true) ∧
    isSuccess (JSValue.objv []) = JSValue.boolv true := by
  refine ⟨fun v hv => ?_, fun fields hs => ?_, fun fields hs he => ?_,
    fun fields hs he => ?_, rfl⟩
  · cases v <;> simp_all [isSuccess, isObjValue, truthy]
  · simp [isSuccess, truthy, hs]
  · simp [isSuccess, truthy, hs, he]
  · simp [isSuccess, truthy, hs, he]

/-- C10 witness: the classification applied at concrete values — the
number `3` is not an object and classifies as failure, and an object with
an `error` key but no `success` key classifies as failure. -/
theorem c10_isSuccess_witness :
    isSuccess (JSValue.numv 3) = JSValue.boolv false ∧
    isSuccess (JSValue.objv [("error", JSValue.strv "boom")])
      = JSValue.boolv false := by
  exact ⟨c10_isSuccess_classification.1 (JSValue.numv 3) rfl,
    c10_isSuccess_classification.2.2.1 [("error", JSValue.strv "boom")] rfl rfl⟩

/-- Appending a single event to a timeline keeps the adjacency invariant
exactly when the invariant held before and the new event does not form a
`NARRATIVE`/`NARRATIVE` pair with the old last event. -/
theorem noAdjNarr_append (xs : List TimelineEvent) (a : TimelineEvent) :
    noAdjNarr (xs ++ [a]) = true ↔
      (noAdjNarr xs = true ∧ ∀ e, xs.getLast? = some e →
        ¬(e.type = EventType.NARRATIVE ∧ a.type = EventType.NARRATIVE)) := by
  induction xs with
  | nil => simp [noAdjNarr]
  | cons x xs ih =>
    cases xs with
    | nil =>
      by_cases hx : x.type = EventType.NARRATIVE <;>
        by_cases ha : a.type = EventType.NARRATIVE <;>
        simp [noAdjNarr, hx, ha]
    | cons y ys =>
      have hlast : (x :: y :: ys).getLast? = (y :: ys).getLast? := by
        simp [List.getLast?_cons_cons]
      constructor
      · intro h
        simp only [List.cons_append, noAdjNarr, Bool.and_eq_true] at h
        have h2 := ih.mp h.2
        refine ⟨?_, ?_⟩
        · simp only [noAdjNarr, Bool.and_eq_true]
          exact ⟨h.1, h2.1⟩
        · intro e he
          exact h2.2 e (hlast ▸ he)
      · rintro ⟨h1, h2⟩
        simp only [noAdjNarr, Bool.and_eq_true] at h1
        simp only [List.cons_append, noAdjNarr, Bool.and_eq_true]
        exact ⟨h1.1, ih.mpr ⟨h1.2, fun e he => h2 e (hlast ▸ he)⟩⟩

/-- C9: `appendToTimeline` coalesces streamed narrative: when the last
timeline event is a `NARRATIVE`, the content is concatenated onto it and no
new event is created; otherwise (including the empty timeline) exactly one
new `NARRATIVE` event is appended; consequently streaming appends never
create two adjacent `NARRATIVE` events. -/
theorem c9_appendToTimeline_coalesces (tl : List TimelineEvent) (c : List Char) :
    (∀ e, tl.getLast? = some e → e.type = EventType.NARRATIVE →
      appendToTimeline tl c = tl.dropLast ++ [{ e with content := e.content ++ c }] ∧
      (appendToTimeline tl c).length = tl.length) ∧
    (∀ e, tl.getLast? = some e → e.type ≠ EventType.NARRATIVE →
      appendToTimeline tl c = tl ++ [{ type := EventType.NARRATIVE, content := c }]) ∧
    (tl = [] →
      appendToTimeline tl c = [{ type := EventType.NARRATIVE, content := c }]) ∧
    (noAdjNarr tl = true → noAdjNarr (appendToTimeline tl c) = true) := by
  refine ⟨fun e he hN => ?_, fun e he hN => ?_, fun he => ?_, fun hinv => ?_⟩
  · have h1 : appendToTimeline tl c
        = tl.dropLast ++ [{ e with content := e.content ++ c }] := by
      simp [appendToTimeline, he, hN]
    have hne : tl ≠ [] := by rintro rfl; simp at he
    have hpos : 0 < tl.length := List.length_pos.mpr hne
    refine ⟨h1, ?_⟩
    rw [h1]
    simp only [List.length_append, List.length_dropLast, List.length_cons,
      List.length_nil]
    omega
  · simp [appendToTimeline, he, hN]
  · simp [appendToTimeline, he]
  · cases he : tl.getLast? with
    | none =>
      have : tl = [] := List.getLast?_eq_none_iff.mp he
      subst this
      simp [appendToTimeline, noAdjNarr]
    | some e =>
      have hd : tl.dropLast ++ [e] = tl := List.dropLast_append_getLast? e he
      have hinv' := (noAdjNarr_append tl.dropLast e).mp (by rw [hd]; exact hinv)
      by_cases hN : e.type = EventType.NARRATIVE
      · simp only [appendToTimeline, he, hN, if_pos rfl]
        refine (noAdjNarr_append tl.dropLast _).mpr ⟨hinv'.1, fun f hf => ?_⟩
        intro hcontra
        exact hinv'.2 f hf ⟨hcontra.1, hN⟩
      · simp only [appendToTimeline, he, if_neg hN]
        refine (noAdjNarr_append tl _).mpr ⟨hinv, fun f hf => ?_⟩
        rw [he] at hf
        cases hf
        intro hcontra
        exact hN hcontra.1

/-- A forced flush always leaves the narration buffer empty. -/
theorem flush_force_buffer (s : GameState) :
    (flushNarrativeBuffer true s).narrativeBuffer = [] := by
  by_cases h : s.narrativeBuffer.isEmpty
  · simp only [flushNarrativeBuffer, h, if_pos rfl]
    exact List.isEmpty_iff.mp h
  · simp [flushNarrativeBuffer, h]

/-- A forced flush appends exactly the stripped buffer (when non-empty) to
the timeline. -/
theorem flush_force_timeline (s : GameState) :
    (flushNarrativeBuffer true s).timeline
      = if (stripTags s.narrativeBuffer).isEmpty then s.timeline
        else appendToTimeline s.timeline (stripTags s.narrativeBuffer) := by
  by_cases h : s.narrativeBuffer.isEmpty
  · have hb : s.narrativeBuffer = [] := List.isEmpty_iff.mp h
    simp [flushNarrativeBuffer, h, hb, stripTags, stripGo]
  · simp [flushNarrativeBuffer, h]

/-- Lemma: `appendToTimeline` never reorders: the sequence of event kinds either
stays unchanged (content coalesced onto the last narrative event) or gains
one trailing `NARRATIVE`. -/
theorem appendToTimeline_map_type (tl : List TimelineEvent) (c : List Char) :
    (appendToTimeline tl c).map TimelineEvent.type = tl.map TimelineEvent.type ∨
    (appendToTimeline tl c).map TimelineEvent.type
      = tl.map TimelineEvent.type ++ [EventType.NARRATIVE] := by
  cases he : tl.getLast? with
  | none =>
    have : tl = [] := List.getLast?_eq_none_iff.mp he
    subst this
    right
    simp [appendToTimeline]
  | some e =>
    have hd : tl.dropLast ++ [e] = tl := List.dropLast_append_getLast? e he
    by_cases hN : e.type = EventType.NARRATIVE
    · left
      simp only [appendToTimeline, he, if_pos hN]
      conv_rhs => rw [← hd]
      simp [hN]
    · right
      simp [appendToTimeline, he, hN]

/-- C4: when the stream handler receives a mechanical event frame, the
buffered narration is flushed (tags stripped) into the timeline first and
the mechanical event is appended strictly after it, leaving an empty
narration buffer; consequently a mechanical event frame is never placed in
the timeline ahead of narration that arrived before it — the resulting
kind sequence is the old one, then possibly one coalesced/new `NARRATIVE`,
then the mechanical kind last. -/
theorem c4_mechanical_after_narration (s : GameState) (t : EventType)
    (c : List Char) (h : t ∈ mechTypes) :
    (handleStreamEvent s (Frame.event t c)).narrativeBuffer = [] ∧
    (handleStreamEvent s (Frame.event t c)).timeline
      = (flushNarrativeBuffer true s).timeline ++ [{ type := t, content := c }] ∧
    ((stripTags s.narrativeBuffer).isEmpty = false →
      (flushNarrativeBuffer true s).timeline
        = appendToTimeline s.timeline (stripTags s.narrativeBuffer)) ∧
    (∃ narrPart, (narrPart = [] ∨ narrPart = [EventType.NARRATIVE]) ∧
      (handleStreamEvent s (Frame.event t c)).timeline.map TimelineEvent.type
        = s.timeline.map TimelineEvent.type ++ narrPart ++ [t]) := by
  have hmem : decide (t ∈ mechTypes) = true := decide_eq_true h
  refine ⟨?_, ?_, ?_, ?_⟩
  · simp [handleStreamEvent, h, flush_force_buffer]
  · simp [handleStreamEvent, h]
  · intro hne
    rw [flush_force_timeline, if_neg (by simp [hne])]
  · have htl : (handleStreamEvent s (Frame.event t c)).timeline
        = (flushNarrativeBuffer true s).timeline ++ [{ type := t, content := c }] := by
      simp [handleStreamEvent, h]
    rw [htl, flush_force_timeline]
    by_cases hemp : (stripTags s.narrativeBuffer).isEmpty
    · refine ⟨[], Or.inl rfl, ?_⟩
      simp [hemp]
    · rw [if_neg hemp]
      rcases appendToTimeline_map_type s.timeline (stripTags s.narrativeBuffer)
        with hmap | hmap
      · exact ⟨[], Or.inl rfl, by simp [hmap]⟩
      · exact ⟨[EventType.NARRATIVE], Or.inr rfl, by simp [hmap]⟩

/-! ### Lemmas about the text primitives -/

theorem begins_length {s pat : List Char} (h : begins s pat = true) :
    pat.length ≤ s.length := by
  induction pat generalizing s with
  | nil => simp
  | cons p pat ih =>
    cases s with
    | nil => simp [begins] at h
    | cons c s =>
      simp only [begins, Bool.and_eq_true] at h
      simpa using Nat.succ_le_succ (ih h.2)

theorem beginsCI_length {s pat : List Char} (h : beginsCI s pat = true) :
    pat.length ≤ s.length := by
  induction pat generalizing s with
  | nil => simp
  | cons p pat ih =>
    cases s with
    | nil => simp [beginsCI] at h
    | cons c s =>
      simp only [beginsCI, Bool.and_eq_true] at h
      simpa using Nat.succ_le_succ (ih h.2)

theorem takeWs_le (s : List Char) : takeWs s ≤ s.length := by
  induction s with
  | nil => simp [takeWs]
  | cons c s ih =>
    simp only [takeWs, List.length_cons]
    split_ifs <;> omega

/-- Appending text whose first character is `<` (not whitespace) does not
extend a leading whitespace run. -/
theorem takeWs_append_lt (u rest : List Char) :
    takeWs (u ++ '<' :: rest) = takeWs u := by
  induction u with
  | nil => simp [takeWs, wsChar]
  | cons c u ih =>
    rw [List.cons_append]
    show (if wsChar c = true then takeWs (u ++ '<' :: rest) + 1 else 0)
      = if wsChar c = true then takeWs u + 1 else 0
    rw [ih]

/-- Appending text whose first character agrees case-insensitively with no
character of `pat` does not change a `beginsCI pat` test. -/
theorem beginsCI_append_of_ci_free (x rest : List Char) :
    ∀ pat : List Char, (∀ p ∈ pat, charCI '<' p = false) →
      beginsCI (x ++ '<' :: rest) pat = beginsCI x pat := by
  induction x with
  | nil =>
    intro pat hp
    cases pat with
    | nil => simp [beginsCI]
    | cons p ps =>
      simp only [List.nil_append, beginsCI, hp p (by simp)]
      simp
  | cons c x ih =>
    intro pat hp
    cases pat with
    | nil => simp [beginsCI]
    | cons p ps =>
      rw [List.cons_append]
      show (charCI c p && beginsCI (x ++ '<' :: rest) ps)
        = (charCI c p && beginsCI x ps)
      rw [ih ps (fun q hq => hp q (by simp [hq]))]

/-- Appending text whose first character occurs nowhere in `pat` does not
change a `begins pat` test. -/
theorem begins_append_of_free (x rest : List Char) :
    ∀ pat : List Char, (∀ p ∈ pat, ¬('<' = p)) →
      begins (x ++ '<' :: rest) pat = begins x pat := by
  induction x with
  | nil =>
    intro pat hp
    cases pat with
    | nil => simp [begins]
    | cons p ps =>
      simp only [List.nil_append, begins]
      simp [hp p (by simp)]
  | cons c x ih =>
    intro pat hp
    cases pat with
    | nil => simp [begins]
    | cons p ps =>
      rw [List.cons_append]
      show (decide (c = p) && begins (x ++ '<' :: rest) ps)
        = (decide (c = p) && begins x ps)
      rw [ih ps (fun q hq => hp q (by simp [hq]))]

theorem lastHit_none {s pat : List Char} (h : lastHit s pat = none) :
    ∀ j, begins (s.drop j) pat = false := by
  induction s with
  | nil =>
    intro j
    simp only [lastHit] at h
    split_ifs at h with hb
    simpa using hb
  | cons c rest ih =>
    simp only [lastHit] at h
    cases hr : lastHit rest pat with
    | some m => rw [hr] at h; cases h
    | none =>
      rw [hr] at h
      split_ifs at h with hb
      intro j
      cases j with
      | zero => simpa using hb
      | succ j' => simpa using ih hr j'

theorem lastHit_some {s pat : List Char} {k : Nat} (hp : pat ≠ [])
    (h : lastHit s pat = some k) :
    begins (s.drop k) pat = true ∧
      ∀ j, k < j → begins (s.drop j) pat = false := by
  induction s generalizing k with
  | nil =>
    simp only [lastHit] at h
    by_cases hb : begins [] pat = true
    · cases pat with
      | nil => exact absurd rfl hp
      | cons p ps => simp [begins] at hb
    · simp [hb] at h
  | cons c rest ih =>
    simp only [lastHit] at h
    cases hr : lastHit rest pat with
    | some m =>
      rw [hr] at h
      cases h
      have hm := ih hr
      refine ⟨hm.1, fun j hj => ?_⟩
      cases j with
      | zero => omega
      | succ j' => simpa using hm.2 j' (by omega)
    | none =>
      rw [hr] at h
      by_cases hb : begins (c :: rest) pat = true
      · rw [if_pos hb] at h
        cases h
        refine ⟨by simpa using hb, fun j hj => ?_⟩
        cases j with
        | zero => omega
        | succ j' => simpa using lastHit_none hr j'
      · rw [if_neg hb] at h
        cases h

theorem containsSub_eq_false_iff {s pat : List Char} :
    containsSub s pat = false ↔ lastHit s pat = none := by
  simp only [containsSub]
  cases lastHit s pat <;> simp

theorem containsSub_cons {c : Char} {s pat : List Char}
    (h : containsSub (c :: s) pat = false) : containsSub s pat = false := by
  rw [containsSub_eq_false_iff] at h ⊢
  simp only [lastHit] at h
  cases hr : lastHit s pat with
  | none => rfl
  | some m => rw [hr] at h; cases h

theorem containsSub_drop {s pat : List Char} {n : Nat} (hp : pat ≠ [])
    (h : containsSub s pat = false) : containsSub (s.drop n) pat = false := by
  rw [containsSub_eq_false_iff] at h ⊢
  cases hk : lastHit (s.drop n) pat with
  | none => rfl
  | some m =>
    have hb := (lastHit_some hp hk).1
    rw [List.drop_drop] at hb
    exact absurd hb (by simp [lastHit_none h (n + m)])

/-- No occurrence of `pat` anywhere implies none at the head. -/
theorem begins_eq_false_of_not_contains {s pat : List Char}
    (h : containsSub s pat = false) : begins s pat = false := by
  rw [containsSub_eq_false_iff] at h
  simpa using lastHit_none h 0

/-! ### The matcher fails on close-free text, and match sizes are bounded -/

theorem tailMatch_noclose {q : List Char}
    (h : containsSub q closeTok = false) : tailMatch q = none := by
  simp only [tailMatch]
  rw [begins_eq_false_of_not_contains (containsSub_drop (by decide) h)]
  simp

theorem lazyScan_noclose {q : List Char}
    (h : containsSub q closeTok = false) : lazyScan q = none := by
  induction q with
  | nil => rfl
  | cons c q' ih =>
    simp only [lazyScan]
    rw [tailMatch_noclose h, ih (containsSub_cons h)]
    split_ifs <;> rfl

theorem findEnd_noclose {r : List Char}
    (h : containsSub r closeTok = false) : findEnd r = none := by
  simp only [findEnd]
  rw [lazyScan_noclose (containsSub_drop (by decide) h)]
  rfl

theorem colonPart_noclose {s4 : List Char}
    (h : containsSub s4 closeTok = false) : colonPart s4 = none := by
  cases s4 with
  | nil => rfl
  | cons c r =>
    simp only [colonPart]
    rw [findEnd_noclose (containsSub_cons h)]
    split_ifs <;> rfl

theorem afterLt_noclose {s1 : List Char}
    (h : containsSub s1 closeTok = false) : afterLt s1 = none := by
  simp only [afterLt]
  by_cases hb : beginsCI (s1.drop (takeWs s1)) speakerStr = true
  · rw [if_pos hb]
    rw [colonPart_noclose
      (containsSub_drop (by decide)
        (containsSub_drop (by decide) (containsSub_drop (by decide) h)))]
    rfl
  · rw [if_neg hb]

theorem matchAt_noclose {s : List Char}
    (h : containsSub s closeTok = false) : matchAt s = none := by
  cases s with
  | nil => rfl
  | cons c1 s' =>
    cases s' with
    | nil => rfl
    | cons c2 s1 =>
      simp only [matchAt]
      by_cases hc : c1 = '<' ∧ c2 = '<'
      · rw [if_pos hc,
          afterLt_noclose (containsSub_cons (containsSub_cons h))]
        rfl
      · rw [if_neg hc]

theorem matchAt_pos {s : List Char} {n : Nat} (h : matchAt s = some n) :
    1 ≤ n := by
  cases s with
  | nil => cases h
  | cons c1 s' =>
    cases s' with
    | nil => cases h
    | cons c2 s1 =>
      simp only [matchAt] at h
      split_ifs at h with hc
      · cases ha : afterLt s1 with
        | none => rw [ha] at h; cases h
        | some m => rw [ha] at h; simp at h; omega

theorem tailMatch_le {q : List Char} {m : Nat} (h : tailMatch q = some m) :
    m ≤ q.length := by
  simp only [tailMatch] at h
  split_ifs at h with hb
  · cases h
    have h2 := begins_length hb
    have h3 := takeWs_le q
    simp only [closeTok, List.length_cons, List.length_nil,
      List.length_drop] at h2
    omega

theorem lazyScan_le {q : List Char} {m : Nat} (h : lazyScan q = some m) :
    m ≤ q.length := by
  induction q generalizing m with
  | nil => cases h
  | cons c q' ih =>
    simp only [lazyScan] at h
    cases ht : tailMatch (c :: q') with
    | some m2 =>
      rw [ht] at h
      cases h
      exact tailMatch_le ht
    | none =>
      rw [ht] at h
      split_ifs at h with hd
      · cases hl : lazyScan q' with
        | none => rw [hl] at h; cases h
        | some m3 =>
          rw [hl] at h
          simp only [Option.map_some'] at h
          cases h
          have := ih hl
          simp only [List.length_cons]
          omega

theorem findEnd_le {r : List Char} {k : Nat} (h : findEnd r = some k) :
    k ≤ r.length := by
  simp only [findEnd] at h
  cases hl : lazyScan (r.drop (takeWs r)) with
  | none => rw [hl] at h; cases h
  | some m =>
    rw [hl] at h
    simp only [Option.map_some'] at h
    cases h
    have h1 := lazyScan_le hl
    have h2 := takeWs_le r
    simp only [List.length_drop] at h1
    omega

theorem colonPart_le {s4 : List Char} {m : Nat} (h : colonPart s4 = some m) :
    m ≤ s4.length := by
  cases s4 with
  | nil => cases h
  | cons c r =>
    simp only [colonPart] at h
    split_ifs at h with hc
    · cases hf : findEnd r with
      | none => rw [hf] at h; cases h
      | some k =>
        rw [hf] at h
        simp only [Option.map_some'] at h
        cases h
        have := findEnd_le hf
        simp only [List.length_cons]
        omega

theorem afterLt_le {s1 : List Char} {m : Nat} (h : afterLt s1 = some m) :
    m ≤ s1.length := by
  simp only [afterLt] at h
  split_ifs at h with hb
  · cases hc : colonPart (((s1.drop (takeWs s1)).drop 7).drop (takeWs ((s1.drop (takeWs s1)).drop 7))) with
    | none => rw [hc] at h; cases h
    | some m4 =>
      rw [hc] at h
      simp only [Option.map_some'] at h
      cases h
      have h1 := colonPart_le hc
      have h2 := takeWs_le s1
      have h3 := beginsCI_length hb
      have h4 := takeWs_le ((s1.drop (takeWs s1)).drop 7)
      simp only [List.length_drop] at h1 h3 h4
      simp only [speakerStr, List.length_cons, List.length_nil] at h3
      omega

theorem matchAt_le {s : List Char} {n : Nat} (h : matchAt s = some n) :
    n ≤ s.length := by
  cases s with
  | nil => cases h
  | cons c1 s' =>
    cases s' with
    | nil => cases h
    | cons c2 s1 =>
      simp only [matchAt] at h
      split_ifs at h with hc
      · cases ha : afterLt s1 with
        | none => rw [ha] at h; cases h
        | some m =>
          rw [ha] at h
          simp only [Option.map_some'] at h
          cases h
          have := afterLt_le ha
          simp only [List.length_cons]
          omega

/-! ### Appending a `<`-headed, close-free tail never changes a match

The tail under consideration is a held-back fragment `'<' :: rest` with no
`>>` inside, appended after arbitrary text.  A match needs a `>>` at its
end; the appended tail has none, and its leading `<` is neither whitespace
nor `>` nor `:` nor a SPEAKER letter, so no stage of the matcher can make
progress past the boundary. -/

theorem tailMatch_append (q rest : List Char) :
    tailMatch (q ++ '<' :: rest) = tailMatch q := by
  simp only [tailMatch]
  rw [takeWs_append_lt, List.drop_append_of_le_length (takeWs_le q),
    begins_append_of_free _ _ closeTok (by decide)]

theorem lazyScan_append (q rest : List Char)
    (hnc : containsSub ('<' :: rest) closeTok = false) :
    lazyScan (q ++ '<' :: rest) = lazyScan q := by
  induction q with
  | nil => simpa using lazyScan_noclose hnc
  | cons c q' ih =>
    rw [List.cons_append]
    simp only [lazyScan]
    rw [← List.cons_append, tailMatch_append]
    cases ht : tailMatch (c :: q') with
    | some m => rfl
    | none => rw [ih]

theorem findEnd_append (r rest : List Char)
    (hnc : containsSub ('<' :: rest) closeTok = false) :
    findEnd (r ++ '<' :: rest) = findEnd r := by
  simp only [findEnd]
  rw [takeWs_append_lt, List.drop_append_of_le_length (takeWs_le r),
    lazyScan_append _ _ hnc]

theorem colonPart_append (z rest : List Char)
    (hnc : containsSub ('<' :: rest) closeTok = false) :
    colonPart (z ++ '<' :: rest) = colonPart z := by
  cases z with
  | nil => simp [colonPart]
  | cons c r =>
    rw [List.cons_append]
    simp only [colonPart]
    rw [findEnd_append _ _ hnc]

theorem afterLt_append (s1 rest : List Char)
    (hnc : containsSub ('<' :: rest) closeTok = false) :
    afterLt (s1 ++ '<' :: rest) = afterLt s1 := by
  simp only [afterLt]
  rw [takeWs_append_lt, List.drop_append_of_le_length (takeWs_le s1),
    beginsCI_append_of_ci_free _ _ speakerStr (by decide)]
  by_cases hb : beginsCI (s1.drop (takeWs s1)) speakerStr = true
  · rw [if_pos hb, if_pos hb]
    have h7 : 7 ≤ (s1.drop (takeWs s1)).length := by
      have := beginsCI_length hb
      simpa [speakerStr] using this
    rw [List.drop_append_of_le_length h7, takeWs_append_lt,
      List.drop_append_of_le_length (takeWs_le ((s1.drop (takeWs s1)).drop 7)),
      colonPart_append _ _ hnc]
  · rw [if_neg hb, if_neg hb]

theorem matchAt_append (u t2 : List Char)
    (hnc : containsSub ('<' :: '<' :: t2) closeTok = false) :
    matchAt (u ++ '<' :: '<' :: t2) = matchAt u := by
  cases u with
  | nil => simpa using matchAt_noclose hnc
  | cons c1 u' =>
    cases u' with
    | nil =>
      by_cases hc1 : c1 = '<'
      · subst hc1
        simp [matchAt, afterLt_noclose (containsSub_cons hnc)]
      · simp [matchAt, hc1]
    | cons c2 u1 =>
      simp only [List.cons_append, matchAt]
      by_cases hc : c1 = '<' ∧ c2 = '<'
      · rw [if_pos hc, if_pos hc, afterLt_append _ _ hnc]
      · rw [if_neg hc, if_neg hc]

/-! ### The global replace: fuel irrelevance, inertness, and suffix
preservation -/

theorem stripGo_fuel :
    ∀ fuel s, s.length ≤ fuel → stripGo fuel s = stripGo s.length s := by
  intro fuel
  induction fuel using Nat.strong_induction_on with
  | _ fuel ih =>
    intro s hs
    match fuel with
    | 0 =>
      have : s = [] := List.eq_nil_of_length_eq_zero (by omega)
      subst this
      rfl
    | f + 1 =>
      cases s with
      | nil => rfl
      | cons c rest =>
        simp only [List.length_cons] at hs
        cases hm : matchAt (c :: rest) with
        | some n =>
          have hn1 := matchAt_pos hm
          have hn2 := matchAt_le hm
          simp only [List.length_cons] at hn2
          simp only [List.length_cons, stripGo, hm]
          rw [ih f (by omega) (List.drop n (c :: rest))
              (by simp only [List.length_drop, List.length_cons]; omega),
            ih rest.length (by omega) (List.drop n (c :: rest))
              (by simp only [List.length_drop, List.length_cons]; omega)]
        | none =>
          simp only [List.length_cons, stripGo, hm]
          rw [ih f (by omega) rest (by omega),
            ih rest.length (by omega) rest (by omega)]

theorem stripGo_noclose {s : List Char}
    (h : containsSub s closeTok = false) :
    ∀ fuel, stripGo fuel s = s := by
  induction s with
  | nil => intro fuel; cases fuel <;> rfl
  | cons c rest ih =>
    intro fuel
    cases fuel with
    | zero => rfl
    | succ f =>
      simp only [stripGo]
      rw [matchAt_noclose h]
      rw [ih (containsSub_cons h) f]

theorem stripTags_noclose {s : List Char}
    (h : containsSub s closeTok = false) : stripTags s = s :=
  stripGo_noclose h s.length

theorem stripGo_append :
    ∀ fuel p t2, containsSub ('<' :: '<' :: t2) closeTok = false →
      (p ++ '<' :: '<' :: t2).length ≤ fuel →
      stripGo fuel (p ++ '<' :: '<' :: t2)
        = stripGo fuel p ++ '<' :: '<' :: t2 := by
  intro fuel
  induction fuel using Nat.strong_induction_on with
  | _ fuel ih =>
    intro p t2 hnc hlen
    match fuel with
    | 0 =>
      exfalso
      simp [List.length_append] at hlen
    | f + 1 =>
      cases p with
      | nil =>
        simpa using stripGo_noclose hnc (f + 1)
      | cons c p' =>
        have hmeq : matchAt (c :: (p' ++ '<' :: '<' :: t2)) = matchAt (c :: p') := by
          rw [← List.cons_append, matchAt_append _ _ hnc]
        simp only [List.length_append, List.length_cons] at hlen
        cases hm : matchAt (c :: p') with
        | some n =>
          have hn1 := matchAt_pos hm
          have hn2 := matchAt_le hm
          rw [List.cons_append]
          simp only [stripGo, hmeq, hm]
          rw [← List.cons_append, List.drop_append_of_le_length hn2]
          exact ih f (by omega) _ t2 hnc (by
            simp only [List.length_append, List.length_drop, List.length_cons]
            simp only [List.length_cons] at hn2
            omega)
        | none =>
          rw [List.cons_append]
          simp only [stripGo, hmeq, hm]
          rw [ih f (by omega) p' t2 hnc (by
            simp only [List.length_append, List.length_cons]
            omega)]
          rfl

/-- The core suffix lemma: stripping a buffer that ends in a held-back,
close-free `<<` fragment leaves that fragment verbatim at the end. -/
theorem stripTags_append (p t2 : List Char)
    (hnc : containsSub ('<' :: '<' :: t2) closeTok = false) :
    stripTags (p ++ '<' :: '<' :: t2) = stripTags p ++ '<' :: '<' :: t2 := by
  unfold stripTags
  rw [stripGo_append (p ++ '<' :: '<' :: t2).length p t2 hnc (by omega),
    stripGo_fuel (p ++ '<' :: '<' :: t2).length p (by simp [List.length_append])]

/-! ### Branch analysis of the non-forced flush -/

/-- A non-forced flush that detects an incomplete tag at the tail (a `<<`
after the last `>>`): the text before the last `<<` is appended (when
non-empty) and the rest is held back. -/
theorem flush_nonforce_incomplete (s : GameState) {k : Nat}
    (hk : lastHit s.narrativeBuffer openTok = some k)
    (hlt : lastIndexOf s.narrativeBuffer closeTok < (k : Int)) :
    flushNarrativeBuffer false s =
      if 0 < k then
        { timeline := appendToTimeline s.timeline (s.narrativeBuffer.take k),
          narrativeBuffer := s.narrativeBuffer.drop k }
      else s := by
  have hbe : s.narrativeBuffer.isEmpty = false := by
    cases hb : s.narrativeBuffer with
    | nil => rw [hb] at hk; simp [lastHit, begins, openTok] at hk
    | cons c rest => simp
  have hopen : lastIndexOf s.narrativeBuffer openTok = (k : Int) := by
    simp [lastIndexOf, hk]
  simp only [flushNarrativeBuffer, hopen]
  rw [if_neg (by simp [hbe])]
  have hcond : (!false &&
      ((k : Int) != -1 &&
        decide (lastIndexOf s.narrativeBuffer closeTok < (k : Int)))) = true := by
    simp only [Bool.not_false, Bool.true_and, Bool.and_eq_true]
    exact ⟨bne_iff_ne.mpr (by omega), decide_eq_true hlt⟩
  rw [if_pos hcond]
  by_cases hkpos : 0 < k
  · rw [if_pos (by exact_mod_cast Int.natCast_pos.mpr hkpos), if_pos hkpos]
    simp [Int.toNat_natCast]
  · rw [if_neg (by simp; omega), if_neg hkpos]

/-- A non-forced flush that detects no incomplete tag at the tail behaves
like a forced flush: the stripped buffer is appended and the buffer is
cleared. -/
theorem flush_nonforce_complete (s : GameState)
    (h : ¬(lastIndexOf s.narrativeBuffer openTok ≠ -1 ∧
        lastIndexOf s.narrativeBuffer closeTok
          < lastIndexOf s.narrativeBuffer openTok)) :
    flushNarrativeBuffer false s =
      { timeline := if (stripTags s.narrativeBuffer).isEmpty then s.timeline
                    else appendToTimeline s.timeline (stripTags s.narrativeBuffer),
        narrativeBuffer := [] } := by
  by_cases hbe : s.narrativeBuffer.isEmpty
  · have hb : s.narrativeBuffer = [] := List.isEmpty_iff.mp hbe
    cases s with
    | mk tl buf =>
      simp only at hb
      subst hb
      simp [flushNarrativeBuffer, stripTags, stripGo]
  · have hcond : (!false &&
        (lastIndexOf s.narrativeBuffer openTok != -1 &&
          decide (lastIndexOf s.narrativeBuffer closeTok
            < lastIndexOf s.narrativeBuffer openTok))) = false := by
      simp only [Bool.not_false, Bool.true_and, Bool.and_eq_false_iff]
      rcases not_and_or.mp h with h1 | h2
      · left
        simp only [ne_eq, not_not] at h1
        simp [bne, h1]
      · right
        simpa using h2
    simp only [flushNarrativeBuffer, hbe, Bool.false_eq_true, if_false, hcond]

/-- C2 counterexample: the single narration token frame
`"a<<SPEAKER:X>>b<<S"` makes the non-forced flush of `handleStreamEvent`
append the chunk `"a<<SPEAKER:X>>b"` to the timeline; that chunk contains
the complete un-stripped tag `"<<SPEAKER:X>>"` (it is an infix of the
chunk, `matchAt` recognises it as a complete SPEAKER tag of length 13, and
stripping the chunk changes it), refuting the claim that chunks appended
by a non-forced flush never contain a complete tag. -/
theorem c2_flush_leaks_complete_tag :
    (handleStreamEvent { timeline := [], narrativeBuffer := [] }
        (Frame.token "a<<SPEAKER:X>>b<<S".toList)).timeline
      = [{ type := EventType.NARRATIVE, content := "a<<SPEAKER:X>>b".toList }] ∧
    "a<<SPEAKER:X>>b".toList
      = "a".toList ++ "<<SPEAKER:X>>".toList ++ "b".toList ∧
    matchAt "<<SPEAKER:X>>".toList = some 13 ∧
    stripTags "a<<SPEAKER:X>>b".toList ≠ "a<<SPEAKER:X>>b".toList := by
  refine ⟨by decide, by decide, by decide, by decide⟩

/-- C2 (amended): a non-forced flush never ends a chunk mid-tag and never
splits a tag across flushes: when the buffer's tail holds an incomplete
tag (a `<<` after the last `>>`, at index `k`), everything from that `<<`
on is held back — the held buffer starts with `<<` and contains no `>>` —
and the appended chunk (if any) is exactly the text before index `k`,
flushed as-is (it may itself still contain SPEAKER tags, as the
counterexample shows); when no incomplete tag is detected at the tail, the
whole buffer is flushed with every complete SPEAKER tag stripped and the
buffer is cleared. -/
theorem c2_flush_holdback_amended (s : GameState) :
    (∀ k : Nat, lastHit s.narrativeBuffer openTok = some k →
      lastIndexOf s.narrativeBuffer closeTok < (k : Int) →
      begins ((flushNarrativeBuffer false s).narrativeBuffer) openTok = true ∧
      containsSub ((flushNarrativeBuffer false s).narrativeBuffer) closeTok
        = false ∧
      ((k = 0 ∧ flushNarrativeBuffer false s = s) ∨
        (0 < k ∧
          (flushNarrativeBuffer false s).timeline
            = appendToTimeline s.timeline (s.narrativeBuffer.take k) ∧
          (flushNarrativeBuffer false s).narrativeBuffer
            = s.narrativeBuffer.drop k))) ∧
    (¬(lastIndexOf s.narrativeBuffer openTok ≠ -1 ∧
        lastIndexOf s.narrativeBuffer closeTok
          < lastIndexOf s.narrativeBuffer openTok) →
      (flushNarrativeBuffer false s).narrativeBuffer = [] ∧
      (flushNarrativeBuffer false s).timeline
        = (if (stripTags s.narrativeBuffer).isEmpty then s.timeline
           else appendToTimeline s.timeline (stripTags s.narrativeBuffer))) := by
  constructor
  · intro k hk hlt
    have hflush := flush_nonforce_incomplete s hk hlt
    have hbuf : (flushNarrativeBuffer false s).narrativeBuffer
        = s.narrativeBuffer.drop k := by
      rw [hflush]
      by_cases hkpos : 0 < k
      · rw [if_pos hkpos]
      · rw [if_neg hkpos]
        have : k = 0 := by omega
        simp [this]
    have hnc : containsSub (s.narrativeBuffer.drop k) closeTok = false := by
      cases hc : lastHit s.narrativeBuffer closeTok with
      | none =>
        exact containsSub_drop (by decide)
          (containsSub_eq_false_iff.mpr hc)
      | some j =>
        have hjk : j < k := by
          simp only [lastIndexOf, hc] at hlt
          exact_mod_cast hlt
        rw [containsSub_eq_false_iff]
        cases hm : lastHit (s.narrativeBuffer.drop k) closeTok with
        | none => rfl
        | some m =>
          exfalso
          have hb := (lastHit_some (by decide) hm).1
          rw [List.drop_drop] at hb
          have := (lastHit_some (by decide) hc).2 (k + m)
            (by omega)
          rw [this] at hb
          cases hb
    refine ⟨?_, by rw [hbuf]; exact hnc, ?_⟩
    · rw [hbuf]
      exact (lastHit_some (by decide) hk).1
    · by_cases hkpos : 0 < k
      · refine Or.inr ⟨hkpos, ?_, by rw [hbuf]⟩
        rw [hflush, if_pos hkpos]
      · have hk0 : k = 0 := by omega
        refine Or.inl ⟨hk0, ?_⟩
        rw [hflush, if_neg hkpos]
  · intro h
    have hflush := flush_nonforce_complete s h
    rw [hflush]
    exact ⟨rfl, rfl⟩

/-- C2 witness: the amended theorem applied at two concrete buffers — the
held-back case `"Hello <<SPE"` (the last `<<` is at index 6, there is no
`>>`): the held buffer starts with `<<`, contains no `>>`, and the chunk
`"Hello "` is appended; and the complete case `"x<<SPEAKER:Y>> z"`: the
buffer is cleared and the stripped text `"x z"` is appended. -/
theorem c2_flush_holdback_witness :
    (begins ((flushNarrativeBuffer false
        { timeline := [], narrativeBuffer := "Hello <<SPE".toList }).narrativeBuffer)
        openTok = true ∧
      containsSub ((flushNarrativeBuffer false
        { timeline := [], narrativeBuffer := "Hello <<SPE".toList }).narrativeBuffer)
        closeTok = false) ∧
    (flushNarrativeBuffer false
        { timeline := [], narrativeBuffer := "x<<SPEAKER:Y>> z".toList }).narrativeBuffer
      = [] := by
  have h1 := (c2_flush_holdback_amended
    { timeline := [], narrativeBuffer := "Hello <<SPE".toList }).1 6
    (by decide) (by decide)
  have h2 := (c2_flush_holdback_amended
    { timeline := [], narrativeBuffer := "x<<SPEAKER:Y>> z".toList }).2
    (by decide)
  exact ⟨⟨h1.1, h1.2.1⟩, h2.1⟩

/-- C3: a forced flush leaves the narration buffer empty and appends the
buffer with every complete `<<SPEAKER:...>>` tag removed (appending
nothing when the stripped text is empty); a trailing incomplete tag — a
final `<<` fragment with no `>>` — is left verbatim at the end of the
flushed text. -/
theorem c3_forced_flush_strips_and_clears (s : GameState) :
    (flushNarrativeBuffer true s).narrativeBuffer = [] ∧
    (flushNarrativeBuffer true s).timeline
      = (if (stripTags s.narrativeBuffer).isEmpty then s.timeline
         else appendToTimeline s.timeline (stripTags s.narrativeBuffer)) ∧
    (∀ p t2, s.narrativeBuffer = p ++ '<' :: '<' :: t2 →
      containsSub ('<' :: '<' :: t2) closeTok = false →
      stripTags s.narrativeBuffer = stripTags p ++ '<' :: '<' :: t2) := by
  refine ⟨flush_force_buffer s, flush_force_timeline s, fun p t2 hsplit hnc => ?_⟩
  rw [hsplit, stripTags_append p t2 hnc]

/-- C3 witness: the forced flush applied to the concrete buffer
`"ab<<SPEAKER:Z>>cd<<SPE"`: the buffer is cleared, and the stripped text
keeps the trailing incomplete fragment `"<<SPE"` verbatim. -/
theorem c3_forced_flush_witness :
    (flushNarrativeBuffer true
        { timeline := [],
          narrativeBuffer := "ab<<SPEAKER:Z>>cd<<SPE".toList }).narrativeBuffer
      = [] ∧
    stripTags "ab<<SPEAKER:Z>>cd<<SPE".toList
      = stripTags "ab<<SPEAKER:Z>>cd".toList ++ '<' :: '<' :: "SPE".toList := by
  have h := c3_forced_flush_strips_and_clears
    { timeline := [], narrativeBuffer := "ab<<SPEAKER:Z>>cd<<SPE".toList }
  exact ⟨h.1, h.2.2 "ab<<SPEAKER:Z>>cd".toList "SPE".toList (by decide) (by decide)⟩

/-- C4 witness: the mechanical-frame contract applied at a concrete state:
a `SKILL_CHECK` frame arriving while `"dice <<SPEAK"` is buffered empties
the buffer, and the forced flush commits the pending narration to the
timeline before the mechanical event. -/
theorem c4_mechanical_witness :
    (handleStreamEvent
        { timeline := [{ type := EventType.USER_INPUT, content := "go".toList }],
          narrativeBuffer := "dice <<SPEAK".toList }
        (Frame.event EventType.SKILL_CHECK "ok".toList)).narrativeBuffer = [] ∧
    (flushNarrativeBuffer true
        { timeline := [{ type := EventType.USER_INPUT, content := "go".toList }],
          narrativeBuffer := "dice <<SPEAK".toList }).timeline
      = appendToTimeline
          [{ type := EventType.USER_INPUT, content := "go".toList }]
          (stripTags "dice <<SPEAK".toList) := by
  have h := c4_mechanical_after_narration
    { timeline := [{ type := EventType.USER_INPUT, content := "go".toList }],
      narrativeBuffer := "dice <<SPEAK".toList }
    EventType.SKILL_CHECK "ok".toList (by decide)
  exact ⟨h.1, h.2.2.1 (by decide)⟩

/-- C9 witness: the coalescing contract applied at a concrete timeline
whose last event is a `NARRATIVE`: the streamed content is concatenated
onto it, no event is created, and the adjacency invariant is preserved. -/
theorem c9_append_witness :
    appendToTimeline
        [{ type := EventType.USER_INPUT, content := "x".toList },
         { type := EventType.NARRATIVE, content := "ab".toList }] "cd".toList
      = [{ type := EventType.USER_INPUT, content := "x".toList },
         { type := EventType.NARRATIVE, content := "abcd".toList }] ∧
    noAdjNarr (appendToTimeline
        [{ type := EventType.USER_INPUT, content := "x".toList },
         { type := EventType.NARRATIVE, content := "ab".toList }] "cd".toList)
      = true := by
  have h := c9_appendToTimeline_coalesces
    [{ type := EventType.USER_INPUT, content := "x".toList },
     { type := EventType.NARRATIVE, content := "ab".toList }] "cd".toList
  exact ⟨((h.1 { type := EventType.NARRATIVE, content := "ab".toList }
      rfl rfl).1).trans (by decide),
    h.2.2.2 (by decide)⟩

end FableStack
